import Mathlib

/-!
Shallow embedding of the MRI DICOM extraction pipeline
(`extract_dicom_for_vlm.py`, `prepare_for_vlm.py`, `create_report.py`).

Pixel values are carried as integers (`ℤ`).  Where the source's
arithmetic runs in a numpy integer dtype — the normalization subtractions
on the no-window path — the dtype's two's-complement wraparound is
modelled explicitly (`DType.wrap`); on the windowed path `np.clip` with
float window bounds promotes the array to float64, whose arithmetic is
exact at these magnitudes.  Python's float division followed by
`int(...)` / `astype(np.uint8)` truncation is modelled as exact integer
truncating division, which agrees with the float computation throughout
the value ranges the claims quantify over.
-/

namespace MRI

/-- Model of Python's `str.isalnum` restricted to the ASCII range (the
inputs exercised by the claims are ASCII; Python additionally accepts
non-ASCII Unicode alphanumerics, which does not affect any statement
below because the sanitizer's output invariant is relative to this very
predicate, and the concrete probe inputs are ASCII). -/
def pyIsAlnum (c : Char) : Bool := c.isAlphanum

/-- `''.join(c if c.isalnum() else '_' for c in series_desc)`
(extract_dicom_for_vlm.py line 41). -/
def sanitizeDesc (s : String) : String :=
  String.mk (s.data.map fun c => if pyIsAlnum c then c else '_')

/-- Python's `s[-8:]`: the last 8 characters of `s`, or all of `s` when it
is shorter than 8 characters. -/
def pyLast8 (s : String) : String := s.drop (s.length - 8)

/-- A DICOM element value that is either a scalar or multi-valued
(pydicom `MultiValue`); a multi-valued field is modelled with its first
element split off, since the code only ever reads `value[0]`. -/
inductive DVal where
  | single (v : ℤ)
  | multi (v : ℤ) (rest : List ℤ)
deriving DecidableEq, Repr

/-- `center[0]` / `width[0]` when the field is a `MultiValue`, else the
scalar itself (extract_dicom_for_vlm.py lines 90-93). -/
def DVal.resolve : DVal → ℤ
  | .single v => v
  | .multi v _ => v

/-- The subset of a decoded DICOM element set (pydicom `Dataset`) that the
pipeline under verification reads.  `none` models an absent tag
(`'Tag' in ds` false). -/
structure ElementSet where
  seriesUID : Option String
  seriesDesc : Option String
  studyDesc : Option String
  modality : Option String
  manufacturer : Option String
  windowCenter : Option DVal
  windowWidth : Option DVal
  patientID : Option String
deriving DecidableEq, Repr

/-- `series_name = f"{clean_desc}_{series_uid[-8:]}"` with the `'unknown'`
fallbacks of extract_dicom_for_vlm.py lines 37-42. -/
def seriesKey (ds : ElementSet) : String :=
  sanitizeDesc (ds.seriesDesc.getD "unknown") ++ "_" ++
    pyLast8 (ds.seriesUID.getD "unknown")

/-- A raw pixel buffer: a 2-D array of integer pixel values (row list of
row contents). -/
abbrev PixelBuf := List (List ℤ)

/-- One input DICOM file.  `meta = none` models a file whose
(metadata-only) decode raises; `pix = none` models a file whose pixel-data
decode raises.  The decoder is deterministic, so decoding the same file
twice gives the same result. -/
structure DFile where
  name : String
  meta : Option ElementSet
  pix : Option PixelBuf
deriving DecidableEq, Repr

/-- Append `f` to the bucket keyed `k`, creating the bucket at the end of
the association list if the key is new — the insertion-ordered semantics
of the Python dict `series_dict` (extract_dicom_for_vlm.py lines 45-48). -/
def insertBucket (k : String) (f : DFile) :
    List (String × List DFile) → List (String × List DFile)
  | [] => [(k, [f])]
  | (k', l) :: rest =>
      if k' = k then (k', l ++ [f]) :: rest else (k', l) :: insertBucket k f rest

/-- First pass (extract_dicom_for_vlm.py lines 31-51): read each file's
metadata, skip files whose decode raises, and bucket the rest by series
key. -/
def buildBuckets (files : List DFile) : List (String × List DFile) :=
  files.foldl
    (fun bs f =>
      match f.meta with
      | none => bs
      | some ds => insertBucket (seriesKey ds) f bs)
    []

/-- Look up a key's bucket (empty list when the key is absent). -/
def bucketOf : List (String × List DFile) → String → List DFile
  | [], _ => []
  | (k', l) :: rest, k => if k' = k then l else bucketOf rest k

/-- The predicate "this file decodes and classifies to key `k`". -/
def classifiesTo (k : String) (f : DFile) : Bool :=
  match f.meta with
  | some ds => seriesKey ds == k
  | none => false

/-- `np.clip(v, lo, hi)` on one element: `min(hi, max(lo, v))`. -/
def clip (lo hi v : ℤ) : ℤ := min hi (max lo v)

/-- The window actually used by the code: present iff both `WindowCenter`
and `WindowWidth` are in the element set, each resolved to its first
element when multi-valued (extract_dicom_for_vlm.py lines 85-93). -/
def windowOf (ds : ElementSet) : Option (ℤ × ℤ) :=
  match ds.windowCenter, ds.windowWidth with
  | some c, some w => some (c.resolve, w.resolve)
  | _, _ => none

/-- `y_min = center - width // 2` — Python floor division of the width
alone, then subtraction. -/
def windowLow (c w : ℤ) : ℤ := c - Int.fdiv w 2

/-- `y_max = center + width // 2`. -/
def windowHigh (c w : ℤ) : ℤ := c + Int.fdiv w 2

/-- `pixel_array = np.clip(pixel_array, y_min, y_max)` when a window is
present, identity otherwise (extract_dicom_for_vlm.py lines 85-99). -/
def applyWindow (w : Option (ℤ × ℤ)) (buf : PixelBuf) : PixelBuf :=
  match w with
  | some (c, wd) => buf.map (List.map (clip (windowLow c wd) (windowHigh c wd)))
  | none => buf

/-- One element of the scaling step
`((v - min) / (max - min) * 255).astype(np.uint8)` **with exact
(non-wrapping) subtraction**: floor of the nonnegative quotient, then the
8-bit unsigned cast (identity on `[0,255]`, modelled as reduction mod
256).  This is the faithful element semantics on the windowed path (where
the buffer has been promoted to float64) and, on the no-window path, for
buffers whose differences fit their integer dtype; `normElemInt` below is
the general in-dtype variant that wraps. -/
def normElem (mn mx v : ℤ) : ℕ :=
  ((v - mn).toNat * 255 / (mx - mn).toNat) % 256

/-- `np.zeros_like(pixel_array, dtype=np.uint8)`. -/
def zerosLike (buf : PixelBuf) : List (List ℕ) :=
  buf.map (List.map fun _ => 0)

/-- The Intensity Normalizer (extract_dicom_for_vlm.py lines 85-106)
**with exact-subtraction element semantics**: window-clip, take min/max
over all elements (`none` when the buffer has no element — numpy's
`.max()` raises there and the file is skipped), then either scale to
0-255 or emit the all-zero buffer when the range is degenerate.  On the
windowed path this is the faithful model outright (the clipped array is
float64); `normalizeBufferD` below additionally models the integer-dtype
wraparound of the no-window path. -/
def normalizeBuffer (buf : PixelBuf) (w : Option (ℤ × ℤ)) :
    Option (List (List ℕ)) :=
  let cb := applyWindow w buf
  match cb.flatten.max?, cb.flatten.min? with
  | some mx, some mn =>
      if mx ≠ mn then some (cb.map (List.map (normElem mn mx)))
      else some (zerosLike cb)
  | _, _ => none

/-- A numpy integer dtype: bit width and signedness (the decoder declares
8/12/16-bit signed or unsigned buffers; 12-bit data is stored in a 16-bit
dtype). -/
structure DType where
  bits : ℕ
  signed : Bool
deriving DecidableEq, Repr

/-- Two's-complement wraparound of an integer into dtype `d` — the value
a numpy array of dtype `d` actually holds after an overflowing
arithmetic operation. -/
def DType.wrap (d : DType) (x : ℤ) : ℤ :=
  let r := Int.emod x (2 ^ d.bits)
  if d.signed = true ∧ 2 ^ (d.bits - 1) ≤ r then r - 2 ^ d.bits else r

/-- One element of the scaling step on the **no-window** path, where
`pixel_array` keeps its integer dtype `d`: `pixel_array - min` and
`max - min` both wrap in `d`, the float64 division and multiplication by
255 are exact at these magnitudes and are truncated toward zero, and the
`astype(np.uint8)` C cast keeps the low byte (the x86 behavior; for
results outside `[0, 255]` — possible only when the dtype wrapped — the
cast is formally platform-dependent). -/
def normElemInt (d : DType) (mn mx v : ℤ) : ℕ :=
  (Int.emod (Int.tdiv (d.wrap (v - mn) * 255) (d.wrap (mx - mn))) 256).toNat

/-- The Intensity Normalizer with the buffer's integer dtype `d` made
explicit.  With a window, `np.clip` with the float window bounds promotes
the array to float64 and the exact model `normalizeBuffer` applies;
without a window the array keeps dtype `d` and both subtractions of the
scaling step wrap in `d`. -/
def normalizeBufferD (d : DType) (buf : PixelBuf) (w : Option (ℤ × ℤ)) :
    Option (List (List ℕ)) :=
  match w with
  | some cw => normalizeBuffer buf (some cw)
  | none =>
      match buf.flatten.max?, buf.flatten.min? with
      | some mx, some mn =>
          if mx ≠ mn then some (buf.map (List.map (normElemInt d mn mx)))
          else some (zerosLike buf)
      | _, _ => none

/-- Python `f"{i:04d}"`: the decimal representation of `i`, left-padded
with zeros to a minimum width of 4. -/
def pad4 (i : ℕ) : String :=
  String.mk (List.replicate (4 - (toString i).length) '0') ++ toString i

/-- What materializing one file persists: the normalized image under its
index-derived name, and the sidecar metadata file name. -/
structure ImageOut where
  imgName : String
  sidecarName : String
  pixels : List (List ℕ)
deriving DecidableEq, Repr

/-- Per-file body of the second-pass loop (extract_dicom_for_vlm.py lines
64-133) at enumeration index `i`: full decode (metadata and pixel data),
normalize, and name the outputs `slice_{i:04d}.png` /
`slice_{i:04d}_metadata.txt`; any failure is the `try`'s exception,
reported with the file's name.  (Pixel contents use the exact-subtraction
normalizer; `normalizeBufferD` succeeds on exactly the same buffers, so
the success/failure structure — all that the loop-shape theorems below
inspect — is unaffected by dtype wraparound.) -/
def processFile (i : ℕ) (f : DFile) : Except String ImageOut :=
  match f.meta, f.pix with
  | some ds, some buf =>
      match normalizeBuffer buf (windowOf ds) with
      | some pix =>
          .ok { imgName := "slice_" ++ pad4 i ++ ".png"
                sidecarName := "slice_" ++ pad4 i ++ "_metadata.txt"
                pixels := pix }
      | none => .error f.name
  | _, _ => .error f.name

/-- The per-bucket loop `for i, dcm_file in enumerate(file_list)` with its
per-file `try/except`: every file is attempted at its enumeration index,
and a failure is recorded without stopping the loop. -/
def materializeBucket (bucket : List DFile) : List (ℕ × Except String ImageOut) :=
  bucket.enum.map fun p => (p.1, processFile p.1 p.2)

/-- The per-series summary (extract_dicom_for_vlm.py lines 136-152) as
`Key: Value` pairs: re-read the first file's metadata (deterministic, so
it succeeds exactly when the stored element set is present) and write the
series fields, including `Number of Images` = bucket length; if reading the
first file raises (or the bucket is empty, where `file_list[0]` raises),
the `except` writes an error line instead. -/
def summaryLines (bucket : List DFile) : List (String × String) :=
  match bucket.head? with
  | some f =>
      match f.meta with
      | some ds =>
          [("Series Description", ds.seriesDesc.getD "N/A"),
           ("Series UID", ds.seriesUID.getD "N/A"),
           ("Study Description", ds.studyDesc.getD "N/A"),
           ("Number of Images", toString bucket.length),
           ("Modality", ds.modality.getD "N/A"),
           ("Manufacturer", ds.manufacturer.getD "N/A")]
      | none => [("Error creating summary", f.name)]
  | none => [("Error creating summary", "list index out of range")]

/-- The whole run after bucketing: each bucket is materialized and
summarized, one entry per bucket. -/
def runMaterialize (files : List DFile) :
    List (String × List (ℕ × Except String ImageOut) × List (String × String)) :=
  (buildBuckets files).map fun p => (p.1, materializeBucket p.2, summaryLines p.2)

/-- The Sampler as the code's branch (prepare_for_vlm.py lines 67-73):
when the target count `k` is truthy and smaller than `n`, build
`[int(i * (n - 1) / (k - 1)) for i in range(k)]` — `none` models the
`ZeroDivisionError` raised when `k = 1` makes the divisor zero; otherwise
all `n` indices are kept (identity). -/
def sampleIndices (n k : ℕ) : Option (List ℕ) :=
  if 0 < k ∧ k < n then
    if k = 1 then none
    else some ((List.range k).map fun i => i * (n - 1) / (k - 1))
  else some (List.range n)

/-- Python's `round` (banker's rounding, ties to even) applied to the
nonnegative rational `a / b`, for `b > 0`. -/
def pyRoundDiv (a b : ℕ) : ℕ :=
  let q := a / b
  let r := a % b
  if 2 * r < b then q
  else if b < 2 * r then q + 1
  else if q % 2 = 0 then q else q + 1

/-- Modelled from the spec's words (§4.4): index `i` =
`round(i * (n-1) / (k-1))` when `k > 1`, and `[0]` when `k == 1`.  Used
only to compare the spec's sampling formula against the code's. -/
def specSampleIndices (n k : ℕ) : List ℕ :=
  if k = 1 then [0]
  else (List.range k).map fun i => pyRoundDiv (i * (n - 1)) (k - 1)

/-- Modelled from the spec's words (§4.2 step 4): output element =
`round((value - buffer_min) / (buffer_max - buffer_min) * 255)`, cast to
8-bit unsigned.  Used only to compare the spec's scaling formula against
the code's. -/
def specRoundElem (mn mx v : ℤ) : ℕ :=
  pyRoundDiv ((v - mn).toNat * 255) ((mx - mn).toNat) % 256

/-- The anonymized patient-identifier token
`"ID" + str(abs(hash(str(ds.PatientID))) % 10000)`
(extract_dicom_for_vlm.py line 73).  Python's string `hash` is an
arbitrary run-dependent integer-valued function, fixed for the duration of
one run; it is therefore a parameter. -/
def anonToken (h : String → ℤ) (pid : String) : String :=
  "ID" ++ toString ((h pid).natAbs % 10000)

/-! ### Helper lemmas -/

theorem int_min?_spec {l : List ℤ} {m : ℤ} (h : l.min? = some m) :
    m ∈ l ∧ ∀ b ∈ l, m ≤ b :=
  ⟨List.min?_mem (fun a b => min_choice a b) h,
   fun b hb => (List.le_min?_iff (fun _ _ _ => le_min_iff) h).1 le_rfl b hb⟩

theorem int_max?_spec {l : List ℤ} {m : ℤ} (h : l.max? = some m) :
    m ∈ l ∧ ∀ b ∈ l, b ≤ m :=
  ⟨List.max?_mem (fun a b => max_choice a b) h,
   fun b hb => (List.max?_le_iff (fun _ _ _ => max_le_iff) h).1 le_rfl b hb⟩

theorem shape_applyWindow (w : Option (ℤ × ℤ)) (buf : PixelBuf) :
    (applyWindow w buf).map List.length = buf.map List.length := by
  cases w with
  | none => rfl
  | some cw =>
      obtain ⟨c, wd⟩ := cw
      simp [applyWindow, List.map_map, Function.comp_def]

theorem shape_zerosLike (buf : PixelBuf) :
    (zerosLike buf).map List.length = buf.map List.length := by
  simp [zerosLike, List.map_map, Function.comp_def]

/-! ### C3: degenerate (constant) buffers normalize to all-zero output -/

/-- C3: for every raw pixel buffer whose (window-clipped) maximum equals
its minimum, the Intensity Normalizer returns (as a policy result, i.e.
`some`, not an error) the all-zero 8-bit buffer of the same shape as the
input. -/
theorem normalizer_degenerate (buf : PixelBuf) (w : Option (ℤ × ℤ)) (m : ℤ)
    (hmax : (applyWindow w buf).flatten.max? = some m)
    (hmin : (applyWindow w buf).flatten.min? = some m) :
    normalizeBuffer buf w = some (zerosLike (applyWindow w buf)) ∧
    (∀ row ∈ zerosLike (applyWindow w buf), ∀ x ∈ row, x = 0) ∧
    (zerosLike (applyWindow w buf)).map List.length = buf.map List.length := by
  refine ⟨?_, ?_, ?_⟩
  · simp [normalizeBuffer, hmax, hmin]
  · intro row hrow x hx
    simp only [zerosLike, List.mem_map] at hrow
    obtain ⟨r, _, hr⟩ := hrow
    subst hr
    simp only [List.mem_map] at hx
    obtain ⟨v, _, hv⟩ := hx
    exact hv.symm
  · exact (shape_zerosLike _).trans (shape_applyWindow w buf)

/-- Witness for `normalizer_degenerate` at the constant buffer [[7,7],[7]]. -/
theorem normalizer_degenerate_witness :
    normalizeBuffer [[7, 7], [7]] none = some (zerosLike (applyWindow none [[7, 7], [7]])) ∧
    (∀ row ∈ zerosLike (applyWindow none [[7, 7], [7]]), ∀ x ∈ row, x = 0) ∧
    (zerosLike (applyWindow none ([[7, 7], [7]] : PixelBuf))).map List.length =
      ([[7, 7], [7]] : PixelBuf).map List.length :=
  normalizer_degenerate [[7, 7], [7]] none 7 (by decide) (by decide)

/-! ### C4: windowing clips every element before normalization -/

/-- C4: when both window fields are present (first element taken if
multi-valued), the Intensity Normalizer first clips every buffer element to
`[center - width // 2, center + width // 2]` and only then min/max
normalizes; for center=100, width=50 a value of 200 clips to 125 and a
value of 0 clips to 75. -/
theorem window_clips_before_normalization (ds : ElementSet) (c w : DVal)
    (buf : PixelBuf) (hc : ds.windowCenter = some c) (hw : ds.windowWidth = some w) :
    windowOf ds = some (c.resolve, w.resolve) ∧
    (∀ x rest, (DVal.multi x rest).resolve = x) ∧
    applyWindow (windowOf ds) buf =
      buf.map (List.map
        (clip (windowLow c.resolve w.resolve) (windowHigh c.resolve w.resolve))) ∧
    normalizeBuffer buf (windowOf ds) =
      normalizeBuffer (applyWindow (windowOf ds) buf) none ∧
    (∀ lo hi v : ℤ, lo ≤ hi → lo ≤ clip lo hi v ∧ clip lo hi v ≤ hi) ∧
    clip (windowLow 100 50) (windowHigh 100 50) 200 = 125 ∧
    clip (windowLow 100 50) (windowHigh 100 50) 0 = 75 := by
  have hwin : windowOf ds = some (c.resolve, w.resolve) := by
    simp [windowOf, hc, hw]
  refine ⟨hwin, fun x rest => rfl, ?_, ?_, ?_, by decide, by decide⟩
  · rw [hwin]; rfl
  · rw [hwin]; rfl
  · intro lo hi v hle
    constructor
    · exact le_min hle (le_max_left lo v)
    · exact min_le_left hi _

/-- Witness for `window_clips_before_normalization` at a concrete element
set carrying a multi-valued window center. -/
theorem window_clips_witness :
    windowOf
        { seriesUID := some "1.2.3", seriesDesc := some "T1", studyDesc := none,
          modality := none, manufacturer := none,
          windowCenter := some (.multi 100 [90]), windowWidth := some (.single 50),
          patientID := some "P" } = some (100, 50) ∧
    clip (windowLow 100 50) (windowHigh 100 50) 200 = 125 ∧
    clip (windowLow 100 50) (windowHigh 100 50) 0 = 75 := by
  have h := window_clips_before_normalization
    { seriesUID := some "1.2.3", seriesDesc := some "T1", studyDesc := none,
      modality := none, manufacturer := none,
      windowCenter := some (.multi 100 [90]), windowWidth := some (.single 50),
      patientID := some "P" }
    (.multi 100 [90]) (.single 50) [[0, 200]] rfl rfl
  exact ⟨h.1, h.2.2.2.2.2.1, h.2.2.2.2.2.2⟩

/-! ### C1: scaling formula and full 0-255 output range -/

theorem normElem_eq_floor (mn mx v : ℤ) (hv : v ≤ mx) (hlt : mn < mx) :
    normElem mn mx v = (v - mn).toNat * 255 / (mx - mn).toNat ∧
    (v - mn).toNat * 255 / (mx - mn).toNat ≤ 255 := by
  have hd : 0 < (mx - mn).toNat := by omega
  have hnum : (v - mn).toNat ≤ (mx - mn).toNat := by omega
  have hle : (v - mn).toNat * 255 / (mx - mn).toNat ≤ 255 := by
    calc (v - mn).toNat * 255 / (mx - mn).toNat
        ≤ (mx - mn).toNat * 255 / (mx - mn).toNat :=
          Nat.div_le_div_right (Nat.mul_le_mul_right 255 hnum)
      _ = 255 := Nat.mul_div_cancel_left 255 hd
  exact ⟨Nat.mod_eq_of_lt (by omega), hle⟩

theorem normElemInt_eq_normElem (d : DType) (mn mx v : ℤ)
    (hmn : mn ≤ v) (hlt : mn < mx)
    (hden : d.wrap (mx - mn) = mx - mn) (hnum : d.wrap (v - mn) = v - mn) :
    normElemInt d mn mx v = normElem mn mx v := by
  unfold normElemInt normElem
  rw [hden, hnum,
    show v - mn = ((v - mn).toNat : ℤ) by omega,
    show mx - mn = ((mx - mn).toNat : ℤ) by omega]
  rfl

/-- C1 (amended): for every buffer whose (window-clipped) maximum exceeds
its minimum, **provided the scaling step's subtractions do not wrap in the
buffer's dtype** (automatic on the windowed path, where the clipped array
is float64; on the no-window path it means the buffer's span fits the
dtype, as it always does for unsigned buffers), every output element is
the **truncation** `⌊(value - min) * 255 / (max - min)⌋` — not the
rounding the spec states — computed independently per element; the output
attains 0 (at a minimum element) and 255 (at a maximum element), and
never exceeds 255, so its minimum element is 0 and its maximum element is
255. -/
theorem normalizer_scales_full_range (d : DType) (buf : PixelBuf)
    (w : Option (ℤ × ℤ)) (mn mx : ℤ)
    (hmin : (applyWindow w buf).flatten.min? = some mn)
    (hmax : (applyWindow w buf).flatten.max? = some mx)
    (hlt : mn < mx)
    (hspan : w = none → d.wrap (mx - mn) = mx - mn ∧
        ∀ v ∈ buf.flatten, d.wrap (v - mn) = v - mn) :
    normalizeBufferD d buf w =
      some ((applyWindow w buf).map (List.map (normElem mn mx))) ∧
    (∀ v : ℤ, v ≤ mx → normElem mn mx v = (v - mn).toNat * 255 / (mx - mn).toNat) ∧
    0 ∈ ((applyWindow w buf).map (List.map (normElem mn mx))).flatten ∧
    255 ∈ ((applyWindow w buf).map (List.map (normElem mn mx))).flatten ∧
    (∀ x ∈ ((applyWindow w buf).map (List.map (normElem mn mx))).flatten, x ≤ 255) := by
  have hflat : ((applyWindow w buf).map (List.map (normElem mn mx))).flatten =
      (applyWindow w buf).flatten.map (normElem mn mx) :=
    (List.map_flatten (normElem mn mx) (applyWindow w buf)).symm
  have hd : 0 < (mx - mn).toNat := by omega
  refine ⟨?_, ?_, ?_, ?_, ?_⟩
  · cases w with
    | some cw =>
        simp [normalizeBufferD, normalizeBuffer, hmax, hmin, hlt.ne']
    | none =>
        obtain ⟨hden, hnum⟩ := hspan rfl
        have hbound := int_min?_spec hmin
        have hcong : buf.map (List.map (normElemInt d mn mx)) =
            buf.map (List.map (normElem mn mx)) := by
          refine List.map_congr_left fun row hrow => ?_
          refine List.map_congr_left fun v hv => ?_
          have hvf : v ∈ buf.flatten := List.mem_flatten.mpr ⟨row, hrow, hv⟩
          exact normElemInt_eq_normElem d mn mx v (hbound.2 v hvf) hlt hden (hnum v hvf)
        simp only [applyWindow] at hmax hmin ⊢
        simp [normalizeBufferD, hmax, hmin, hlt.ne', hcong]
  · exact fun v hv => (normElem_eq_floor mn mx v hv hlt).1
  · rw [hflat]
    refine List.mem_map.mpr ⟨mn, (int_min?_spec hmin).1, ?_⟩
    simp [normElem]
  · rw [hflat]
    refine List.mem_map.mpr ⟨mx, (int_max?_spec hmax).1, ?_⟩
    have : (mx - mn).toNat * 255 / (mx - mn).toNat = 255 :=
      Nat.mul_div_cancel_left 255 hd
    simp [normElem, Nat.mod_eq_of_lt, this]
  · rw [hflat]
    intro x hx
    obtain ⟨v, hv, hvx⟩ := List.mem_map.mp hx
    have hvmx : v ≤ mx := (int_max?_spec hmax).2 v hv
    have h := normElem_eq_floor mn mx v hvmx hlt
    omega

/-- Witness for `normalizer_scales_full_range` at the uint8 buffer
[[0,1,2]] (whose dtype never wraps). -/
theorem normalizer_scales_witness :
    normalizeBufferD ⟨8, false⟩ [[0, 1, 2]] none =
      some ((applyWindow none [[0, 1, 2]]).map (List.map (normElem 0 2))) ∧
    0 ∈ ((applyWindow none ([[0, 1, 2]] : PixelBuf)).map (List.map (normElem 0 2))).flatten ∧
    255 ∈ ((applyWindow none ([[0, 1, 2]] : PixelBuf)).map (List.map (normElem 0 2))).flatten := by
  have h := normalizer_scales_full_range ⟨8, false⟩ [[0, 1, 2]] none 0 2
    (by decide) (by decide) (by decide) (fun _ => ⟨by decide, by decide⟩)
  exact ⟨h.1, h.2.2.1, h.2.2.2.1⟩

/-- Counterexample to C1 as stated, on both counts.  Truncation: on the
buffer [[0,1,2]] the middle element scales to the exact rational 127.5;
the code truncates to 127 while the spec's `round` gives 128.  Dtype
wraparound: on the no-window path an int16 buffer [[-32768, 0, 32767]]
has both normalization subtractions wrap in int16 (`0 - min → -32768`,
`max - min → -1`), so the code emits [[0, 0, 255]] where the spec's
per-element formula gives `round(32768 * 255 / 65535) = 128` for the
middle element. -/
theorem normalizer_not_round :
    normalizeBuffer [[0, 1, 2]] none = some [[0, 127, 255]] ∧
    specRoundElem 0 2 1 = 128 ∧
    normalizeBuffer [[0, 1, 2]] none ≠
      some [[specRoundElem 0 2 0, specRoundElem 0 2 1, specRoundElem 0 2 2]] ∧
    normalizeBufferD ⟨8, false⟩ [[0, 1, 2]] none = some [[0, 127, 255]] ∧
    normalizeBufferD ⟨16, true⟩ [[-32768, 0, 32767]] none = some [[0, 0, 255]] ∧
    specRoundElem (-32768) 32767 0 = 128 := by
  refine ⟨by decide, by decide, ?_, by decide, ?_, by decide⟩
  · intro h
    simp only [show normalizeBuffer [[0, 1, 2]] none = some [[0, 127, 255]] from by decide] at h
    exact absurd h (by decide)
  · decide

/-! ### C2: the Sampler's index formula -/

/-- C2 (amended): for `2 ≤ k ≤ n` the Sampler succeeds and returns exactly
`k` indices (duplicates kept, not de-duplicated), the `i`-th being the
**truncation** `⌊i * (n-1) / (k-1)⌋` — not the rounding the spec states —
and the result always contains index 0 and index n-1.  (For `k = 1` and
`n > 1` the code raises a division-by-zero error instead of returning
`[0]`; that case is outside this theorem.) -/
theorem sampler_truncated_even_spacing (n k : ℕ) (h2 : 2 ≤ k) (hk : k ≤ n) :
    ∃ l, sampleIndices n k = some l ∧ l.length = k ∧
      (∀ i, i < k → l[i]? = some (i * (n - 1) / (k - 1))) ∧
      0 ∈ l ∧ (n - 1) ∈ l := by
  rcases Nat.lt_or_ge k n with hlt | hge
  · refine ⟨(List.range k).map fun i => i * (n - 1) / (k - 1), ?_, by simp, ?_, ?_, ?_⟩
    · simp only [sampleIndices, if_pos (⟨by omega, hlt⟩ : 0 < k ∧ k < n),
        if_neg (by omega : ¬ k = 1)]
    · intro i hi
      rw [List.getElem?_map, List.getElem?_range hi]
      rfl
    · exact List.mem_map.mpr ⟨0, List.mem_range.mpr (by omega), by simp⟩
    · refine List.mem_map.mpr ⟨k - 1, List.mem_range.mpr (by omega), ?_⟩
      exact Nat.mul_div_cancel_left (n - 1) (by omega)
  · have heq : k = n := le_antisymm hk hge
    subst heq
    refine ⟨List.range k, ?_, by simp, ?_, ?_, ?_⟩
    · simp [sampleIndices]
    · intro i hi
      rw [List.getElem?_range hi]
      congr 1
      exact (Nat.mul_div_cancel i (by omega : 0 < k - 1)).symm
    · exact List.mem_range.mpr (by omega)
    · exact List.mem_range.mpr (by omega)

/-- Witness for `sampler_truncated_even_spacing` at n=10, k=4. -/
theorem sampler_witness :
    ∃ l, sampleIndices 10 4 = some l ∧ l.length = 4 ∧
      (∀ i, i < 4 → l[i]? = some (i * 9 / 3)) ∧ 0 ∈ l ∧ 9 ∈ l :=
  sampler_truncated_even_spacing 10 4 (by decide) (by decide)

/-- Counterexample to C2 as stated: for n=4, k=3 the code truncates
`1 * 3 / 2 = 1.5` to index 1 where the spec's `round` gives 2, and for
n=2, k=1 the code divides by zero (no `[0]` is returned). -/
theorem sampler_not_round :
    sampleIndices 4 3 = some [0, 1, 3] ∧
    specSampleIndices 4 3 = [0, 2, 3] ∧
    sampleIndices 4 3 ≠ some (specSampleIndices 4 3) ∧
    sampleIndices 2 1 = none ∧
    specSampleIndices 2 1 = [0] := by
  refine ⟨by decide, by decide, ?_, by decide, by decide⟩
  intro h
  exact absurd h (by decide)

/-! ### C5: which characters a series key can contain -/

/-- A concrete element set whose series unique identifier carries dots, as
DICOM UIDs do. -/
def dsDotted : ElementSet :=
  { seriesUID := some "1.2.840.113619", seriesDesc := some "AX T2",
    studyDesc := none, modality := none, manufacturer := none,
    windowCenter := none, windowWidth := none, patientID := none }

/-- C5 (amended): the series key is the sanitized description, an
underscore, and the **unsanitized** last-8-character suffix of the unique
identifier; only the description part is guaranteed to hold nothing but
alphanumerics and underscores — every key character is alphanumeric, an
underscore, or a character of the raw identifier suffix (which may be,
e.g., a dot). -/
theorem seriesKey_characters (ds : ElementSet) :
    seriesKey ds =
      sanitizeDesc (ds.seriesDesc.getD "unknown") ++ "_" ++
        pyLast8 (ds.seriesUID.getD "unknown") ∧
    (∀ c ∈ (sanitizeDesc (ds.seriesDesc.getD "unknown")).data,
        pyIsAlnum c = true ∨ c = '_') ∧
    (∀ c ∈ (seriesKey ds).data,
        pyIsAlnum c = true ∨ c = '_' ∨
          c ∈ (pyLast8 (ds.seriesUID.getD "unknown")).data) := by
  have hsan : ∀ s : String, ∀ c ∈ (sanitizeDesc s).data, pyIsAlnum c = true ∨ c = '_' := by
    intro s c hc
    simp only [sanitizeDesc, List.mem_map] at hc
    obtain ⟨a, _, ha⟩ := hc
    by_cases h : pyIsAlnum a
    · left; rw [← ha]; simp [h]
    · right; rw [← ha]; simp [h]
  refine ⟨rfl, hsan _, ?_⟩
  intro c hc
  have hdata : (seriesKey ds).data =
      (sanitizeDesc (ds.seriesDesc.getD "unknown")).data ++ '_' ::
        (pyLast8 (ds.seriesUID.getD "unknown")).data := by
    simp [seriesKey, String.data_append]
  rw [hdata] at hc
  rcases List.mem_append.mp hc with h | h
  · rcases hsan _ c h with h1 | h1
    · exact Or.inl h1
    · exact Or.inr (Or.inl h1)
  · rcases List.mem_cons.mp h with h1 | h1
    · exact Or.inr (Or.inl h1)
    · exact Or.inr (Or.inr h1)

/-- Witness for `seriesKey_characters` at `dsDotted`: the dot in the key
is accounted for by the identifier-suffix clause. -/
theorem seriesKey_characters_witness :
    pyIsAlnum '.' = true ∨ '.' = '_' ∨
      '.' ∈ (pyLast8 ((dsDotted.seriesUID).getD "unknown")).data :=
  (seriesKey_characters dsDotted).2.2 '.' (by decide)

/-- Counterexample to C5 as stated: the key of `dsDotted` is
"AX_T2_0.113619", which contains the character '.', neither alphanumeric
nor an underscore — the identifier suffix is not sanitized. -/
theorem seriesKey_not_alnum_only :
    seriesKey dsDotted = "AX_T2_0.113619" ∧
    ¬ (∀ c ∈ (seriesKey dsDotted).data, pyIsAlnum c = true ∨ c = '_') := by
  constructor
  · decide
  · intro h
    have := h '.' (by decide)
    exact absurd this (by decide)

/-! ### C6: classification is deterministic and order-independent -/

/-- The files of `files` that decode and classify to key `k`, in input
order. -/
def keyFilter (files : List DFile) (k : String) : List DFile :=
  files.filter (classifiesTo k)

theorem bucketOf_insertBucket (bs : List (String × List DFile)) (kI : String)
    (f : DFile) (k : String) :
    bucketOf (insertBucket kI f bs) k =
      bucketOf bs k ++ if kI = k then [f] else [] := by
  induction bs with
  | nil =>
      by_cases h : kI = k <;> simp [insertBucket, bucketOf, h]
  | cons p rest ih =>
      obtain ⟨kk, l⟩ := p
      by_cases h1 : kk = kI
      · subst h1
        by_cases h2 : kk = k
        · subst h2
          simp [insertBucket, bucketOf]
        · simp [insertBucket, bucketOf, h2]
      · by_cases h2 : kk = k
        · subst h2
          have h3 : ¬ kI = kk := fun h => h1 h.symm
          simp [insertBucket, bucketOf, h1, h3]
        · simp only [insertBucket, if_neg h1]
          simpa [bucketOf, h2] using ih

theorem bucketOf_foldl (files : List DFile) (bs : List (String × List DFile))
    (k : String) :
    bucketOf (files.foldl
        (fun bs f =>
          match f.meta with
          | none => bs
          | some ds => insertBucket (seriesKey ds) f bs) bs) k =
      bucketOf bs k ++ keyFilter files k := by
  induction files generalizing bs with
  | nil => simp [keyFilter]
  | cons f rest ih =>
      cases hm : f.meta with
      | none =>
          simp only [List.foldl_cons, hm]
          rw [ih]
          simp [keyFilter, List.filter_cons, classifiesTo, hm]
      | some ds =>
          simp only [List.foldl_cons, hm]
          rw [ih, bucketOf_insertBucket]
          by_cases hk : seriesKey ds = k
          · simp [keyFilter, List.filter_cons, classifiesTo, hm, hk]
          · simp [keyFilter, List.filter_cons, classifiesTo, hm, hk]

/-- The bucket for key `k` is exactly the input-ordered sublist of files
that decode and classify to `k`. -/
theorem bucketOf_buildBuckets (files : List DFile) (k : String) :
    bucketOf (buildBuckets files) k = keyFilter files k := by
  have h := bucketOf_foldl files [] k
  simpa [buildBuckets, bucketOf] using h

/-- C6: the Series Classifier is deterministic (two element sets that agree
on the series unique identifier and the series description get the same
key, whatever their other fields), and bucketing is order-independent —
classifying any permutation of the input yields, for every key, a
permutation of the same bucket (equal membership) — while each bucket
lists its files in input order (it is the input-ordered filter). -/
theorem classifier_deterministic_order_independent :
    (∀ d1 d2 : ElementSet, d1.seriesUID = d2.seriesUID →
        d1.seriesDesc = d2.seriesDesc → seriesKey d1 = seriesKey d2) ∧
    (∀ files k, bucketOf (buildBuckets files) k = keyFilter files k) ∧
    (∀ l1 l2 : List DFile, l1.Perm l2 → ∀ k,
        (bucketOf (buildBuckets l1) k).Perm (bucketOf (buildBuckets l2) k)) := by
  refine ⟨?_, bucketOf_buildBuckets, ?_⟩
  · intro d1 d2 h1 h2
    simp [seriesKey, h1, h2]
  · intro l1 l2 hperm k
    rw [bucketOf_buildBuckets, bucketOf_buildBuckets]
    exact hperm.filter (classifiesTo k)

/-- Concrete files used by the classifier witnesses: two files of one
series (differing in patient identifier) and one file of another. -/
def fileA : DFile :=
  ⟨"IM001.DCM",
   some { seriesUID := some "1.2.840.113619", seriesDesc := some "AX T2",
          studyDesc := none, modality := some "MR", manufacturer := none,
          windowCenter := none, windowWidth := none, patientID := some "P1" },
   some [[0, 1]]⟩

def fileB : DFile :=
  ⟨"IM002.DCM",
   some { seriesUID := some "1.2.840.113619", seriesDesc := some "AX T2",
          studyDesc := none, modality := some "MR", manufacturer := none,
          windowCenter := none, windowWidth := none, patientID := some "P2" },
   some [[5, 9]]⟩

def fileC : DFile :=
  ⟨"IM003.DCM",
   some { seriesUID := some "9.8.7.60000001", seriesDesc := some "SAG T1",
          studyDesc := none, modality := some "MR", manufacturer := none,
          windowCenter := none, windowWidth := none, patientID := some "P1" },
   some [[3]]⟩

/-- Witness for `classifier_deterministic_order_independent`: applied to
two element sets sharing identifier and description, and to the file list
[fileA, fileB, fileC] against its rotation. -/
theorem classifier_witness :
    seriesKey (fileA.meta.getD dsDotted) = seriesKey (fileB.meta.getD dsDotted) ∧
    bucketOf (buildBuckets [fileA, fileB, fileC]) "AX_T2_0.113619" =
      keyFilter [fileA, fileB, fileC] "AX_T2_0.113619" ∧
    (bucketOf (buildBuckets [fileA, fileB, fileC]) "AX_T2_0.113619").Perm
      (bucketOf (buildBuckets [fileC, fileB, fileA]) "AX_T2_0.113619") :=
  ⟨classifier_deterministic_order_independent.1 _ _ rfl rfl,
   classifier_deterministic_order_independent.2.1 [fileA, fileB, fileC] _,
   classifier_deterministic_order_independent.2.2 [fileA, fileB, fileC]
     [fileC, fileB, fileA] (by decide) _⟩

/-! ### C7: per-file failures are non-fatal -/

/-- C7: within each bucket every file is attempted — the materializer's
result has one entry per bucket file, and the entry at position `j` is
exactly file `j`'s own outcome, independent of any earlier file's decode,
normalization or write failure; and the run processes every bucket, so no
file-level error aborts a series or the run. -/
theorem file_failures_nonfatal :
    (∀ bucket : List DFile, (materializeBucket bucket).length = bucket.length) ∧
    (∀ (bucket : List DFile) (j : ℕ),
        (materializeBucket bucket)[j]? =
          bucket[j]?.map fun f => (j, processFile j f)) ∧
    (∀ files : List DFile,
        (runMaterialize files).length = (buildBuckets files).length) := by
  refine ⟨?_, ?_, ?_⟩
  · intro bucket
    simp [materializeBucket]
  · intro bucket j
    rw [materializeBucket, List.getElem?_map, List.getElem?_enum]
    cases bucket[j]? <;> rfl
  · intro files
    simp [runMaterialize]

/-! ### C8: sequential zero-based indices and zero-padded names -/

/-- C8: the materializer assigns indices 0, 1, … in bucket order (the
index sequence of a bucket's results is exactly `range` of its length),
and every file that processes successfully persists its image as
`slice_{i:04d}.png` with sidecar `slice_{i:04d}_metadata.txt` at its own
sequential index. -/
theorem sequential_indices_and_names :
    (∀ bucket : List DFile,
        (materializeBucket bucket).map Prod.fst = List.range bucket.length) ∧
    (∀ (j : ℕ) (f : DFile) (out : ImageOut), processFile j f = .ok out →
        out.imgName = "slice_" ++ pad4 j ++ ".png" ∧
        out.sidecarName = "slice_" ++ pad4 j ++ "_metadata.txt") := by
  constructor
  · intro bucket
    rw [materializeBucket, List.map_map]
    have : (Prod.fst ∘ fun p : ℕ × DFile => (p.1, processFile p.1 p.2)) = Prod.fst := by
      funext p; rfl
    rw [this, List.enum_map_fst]
  · intro j f out h
    cases hm : f.meta with
    | none => simp [processFile, hm] at h
    | some ds =>
        cases hp : f.pix with
        | none => simp [processFile, hm, hp] at h
        | some buf =>
            cases hn : normalizeBuffer buf (windowOf ds) with
            | none => simp [processFile, hm, hp, hn] at h
            | some pix =>
                simp only [processFile, hm, hp, hn, Except.ok.injEq] at h
                rw [← h]
                exact ⟨rfl, rfl⟩

/-- Witness for `sequential_indices_and_names` at index 2 of a concrete
successfully-processed file. -/
theorem sequential_names_witness :
    (ImageOut.mk "slice_0002.png" "slice_0002_metadata.txt" [[0, 255]]).imgName =
      "slice_" ++ pad4 2 ++ ".png" ∧
    (ImageOut.mk "slice_0002.png" "slice_0002_metadata.txt" [[0, 255]]).sidecarName =
      "slice_" ++ pad4 2 ++ "_metadata.txt" :=
  sequential_indices_and_names.2 2 fileA
    (ImageOut.mk "slice_0002.png" "slice_0002_metadata.txt" [[0, 255]]) rfl

/-! ### C9: one summary per bucket, counting attempted files -/

/-- C9: every nonempty bucket built by the classifier yields a summary
derived from its first file whose `Number of Images` line equals the
bucket size (files attempted), regardless of how many files materialize
successfully; and the run emits exactly one summary per bucket. -/
theorem summary_counts_bucket_size :
    (∀ (files : List DFile) (k : String),
        bucketOf (buildBuckets files) k ≠ [] →
          ("Number of Images",
              toString (bucketOf (buildBuckets files) k).length) ∈
            summaryLines (bucketOf (buildBuckets files) k)) ∧
    (∀ files : List DFile,
        (runMaterialize files).map (fun p => p.2.2) =
          (buildBuckets files).map fun p => summaryLines p.2) := by
  constructor
  · intro files k hne
    rw [bucketOf_buildBuckets] at hne ⊢
    cases hb : keyFilter files k with
    | nil => exact absurd hb hne
    | cons f rest =>
        have hf : f ∈ keyFilter files k := by rw [hb]; exact List.mem_cons_self f rest
        have hcl : classifiesTo k f = true := (List.mem_filter.mp hf).2
        cases hm : f.meta with
        | none => simp [classifiesTo, hm] at hcl
        | some ds => simp [summaryLines, hm]
  · intro files
    simp [runMaterialize]

/-- Witness for `summary_counts_bucket_size`: a two-file bucket in which
the second file's pixel decode fails still reports 2 images. -/
theorem summary_counts_witness :
    ("Number of Images",
        toString (bucketOf
          (buildBuckets [fileA, DFile.mk "IM004.DCM" fileB.meta none])
          "AX_T2_0.113619").length) ∈
      summaryLines (bucketOf
        (buildBuckets [fileA, DFile.mk "IM004.DCM" fileB.meta none])
        "AX_T2_0.113619") :=
  summary_counts_bucket_size.1 [fileA, DFile.mk "IM004.DCM" fileB.meta none]
    "AX_T2_0.113619" (by decide)

/-! ### C10: the anonymized patient token space -/

/-- C10: for any per-run hash function, the anonymized patient token is
"ID" followed by the decimal representation of a natural number below
10000; equal identifier inputs map to equal tokens within the run; and all
tokens the run can ever produce lie in one set of at most 10,000 strings. -/
theorem anonToken_bounded_space (h : String → ℤ) (pid : String) :
    (∃ n : ℕ, n < 10000 ∧ anonToken h pid = "ID" ++ toString n) ∧
    (∀ pid2, pid2 = pid → anonToken h pid2 = anonToken h pid) ∧
    (∃ S : Finset String, S.card ≤ 10000 ∧ ∀ q, anonToken h q ∈ S) := by
  refine ⟨⟨(h pid).natAbs % 10000, Nat.mod_lt _ (by norm_num), rfl⟩,
    fun pid2 he => by rw [he], ?_⟩
  refine ⟨Finset.image (fun n : Fin 10000 => "ID" ++ toString n.val) Finset.univ,
    ?_, ?_⟩
  · calc (Finset.image (fun n : Fin 10000 => "ID" ++ toString n.val)
          Finset.univ).card
        ≤ (Finset.univ : Finset (Fin 10000)).card := Finset.card_image_le
      _ = 10000 := by rw [Finset.card_univ, Fintype.card_fin]
  · intro q
    exact Finset.mem_image.mpr
      ⟨⟨(h q).natAbs % 10000, Nat.mod_lt _ (by norm_num)⟩, Finset.mem_univ _, rfl⟩

/-- Witness for `anonToken_bounded_space` at a concrete hash function and
patient identifier. -/
theorem anonToken_witness :
    (∃ n : ℕ, n < 10000 ∧
        anonToken (fun s => (s.length : ℤ) - 20) "PAT001" = "ID" ++ toString n) ∧
    anonToken (fun s => (s.length : ℤ) - 20) "PAT001" =
      anonToken (fun s => (s.length : ℤ) - 20) "PAT001" :=
  ⟨(anonToken_bounded_space (fun s => (s.length : ℤ) - 20) "PAT001").1,
   (anonToken_bounded_space (fun s => (s.length : ℤ) - 20) "PAT001").2.1 "PAT001" rfl⟩

end MRI
